import Mathlib

/-!
Verification of the CafeFinder client (src/script.js, OpenStreetMap variant).

The development shallowly embeds the data-shaping core of the script:

* `getLocation`   — geolocation with a 10-minute cache (script.js:25-59)
* `useLocation`   — the single Overpass query, the normalization and dedup
                    pass over `data.elements`, and the outcome dispatch
                    (script.js:62-138)
* `displayCards`  — truncation to the first 5 cards and construction of the
                    `cafeData` objects handed to `saveCafe` (script.js:141-209)
* `saveCafe`      — the saved-list store with its `place_id` duplicate test
                    (script.js:219-230)
* `showSaved`     — rendering of the persisted list (script.js:233-260)

JavaScript truthiness on the string fields that the script tests
(`cafe.tags.name`, `cafe.tags['addr:street']`, `cafe.address`,
`cache.timestamp`) is modelled explicitly: a missing field is `none`, and a
present string is truthy exactly when it is non-empty; a present number is
truthy exactly when it is non-zero.  Times are epoch milliseconds as integers;
latitude/longitude values are carried opaquely as integers since the script
never computes with them.
-/

/-- JS truthiness of an optional string field: present and non-empty. -/
def truthyStr : Option String → Bool
  | some s => s ≠ ""
  | none => false

/-- The OSM tag fields the script reads (`name`, `addr:street`,
`addr:housenumber`).  Other tags are never consulted by the logic under
verification. -/
structure Tags where
  name : Option String
  addrStreet : Option String
  addrHousenumber : Option String
  deriving Repr, DecidableEq

/-- A raw element of the Overpass response (`data.elements[i]`): `id`, an
optional `tags` object, and optional coordinates. -/
structure RawCafe where
  id : Nat
  tags : Option Tags
  lat : Option Int
  lon : Option Int
  deriving Repr, DecidableEq

/-- A normalized record as pushed onto `uniqueCafes` (script.js:111-120). -/
structure NormalizedCafe where
  id : Nat
  name : String
  tags : Tags
  lat : Option Int
  lon : Option Int
  address : String
  deriving Repr, DecidableEq

/-- The address expression of script.js:117-119:
`cafe.tags['addr:street'] ? street + (housenumber ? ' ' + housenumber : '') :
'Address not available'`. -/
def buildAddress (t : Tags) : String :=
  match t.addrStreet with
  | some s =>
    if s ≠ "" then
      s ++ (match t.addrHousenumber with
            | some h => if h ≠ "" then " " ++ h else ""
            | none => "")
    else "Address not available"
  | none => "Address not available"

/-- The object literal pushed at script.js:111-120, given the record's
(truthy-named) tags. -/
def normalizeWith (c : RawCafe) (t : Tags) : NormalizedCafe :=
  { id := c.id
    name := t.name.getD ""
    tags := t
    lat := c.lat
    lon := c.lon
    address := buildAddress t }

/-- The normalized form of one raw record, or `none` when the record fails
the `cafe.tags && cafe.tags.name` guard of script.js:109. -/
def normRecord (c : RawCafe) : Option NormalizedCafe :=
  match c.tags with
  | some t => if truthyStr t.name then some (normalizeWith c t) else none
  | none => none

/-- Accumulator of the `forEach` at script.js:108-122: the `uniqueCafes`
array and the `seenIds` set (a membership-only structure, carried as a
list). -/
structure DedupState where
  uniqueCafes : List NormalizedCafe
  seenIds : List Nat
  deriving Repr, DecidableEq

/-- One iteration of the `forEach` at script.js:108-122. -/
def dedupStep (st : DedupState) (c : RawCafe) : DedupState :=
  match c.tags with
  | some t =>
    if truthyStr t.name && !st.seenIds.contains c.id then
      { uniqueCafes := st.uniqueCafes ++ [normalizeWith c t]
        seenIds := c.id :: st.seenIds }
    else st
  | none => st

/-- The `uniqueCafes` array produced from `data.elements`
(script.js:105-122). -/
def uniqueCafes (l : List RawCafe) : List NormalizedCafe :=
  (l.foldl dedupStep ⟨[], []⟩).uniqueCafes

/-- Structural recursion equivalent of the dedup fold, used in proofs:
records whose id is in `seen`, or which fail the name guard, are skipped. -/
def dedupRec (seen : List Nat) : List RawCafe → List NormalizedCafe
  | [] => []
  | c :: rest =>
    match c.tags with
    | some t =>
      if truthyStr t.name && !seen.contains c.id then
        normalizeWith c t :: dedupRec (c.id :: seen) rest
      else dedupRec seen rest
    | none => dedupRec seen rest

theorem foldl_dedupStep (l : List RawCafe) (st : DedupState) :
    (l.foldl dedupStep st).uniqueCafes = st.uniqueCafes ++ dedupRec st.seenIds l := by
  induction l generalizing st with
  | nil => simp [dedupRec]
  | cons c rest ih =>
    rw [List.foldl_cons]
    cases h : c.tags with
    | none =>
      simp only [dedupRec, dedupStep, h]
      exact ih st
    | some t =>
      simp only [dedupRec, dedupStep, h]
      by_cases hc : (truthyStr t.name && !st.seenIds.contains c.id) = true
      · simp only [if_pos hc]
        rw [ih]
        simp
      · simp only [if_neg hc]
        exact ih st

theorem uniqueCafes_eq_dedupRec (l : List RawCafe) :
    uniqueCafes l = dedupRec [] l := by
  simpa using foldl_dedupStep l ⟨[], []⟩

/-- The outcome of the single `fetch` of `useLocation` (script.js:88-94):
either the transport threw, or an HTTP response arrived with its `ok` flag,
its `status`, and (after `.json()`) an optional `elements` array. -/
inductive FetchResult where
  | transportError (msg : String)
  | httpResponse (ok : Bool) (status : Nat) (elements : Option (List RawCafe))
  deriving Repr, DecidableEq

/-- What `useLocation` does with the response: hand a non-empty normalized
list to `displayCards`, render the "No cafés found nearby" message, or land
in the `catch` block carrying the thrown error (script.js:103-134). -/
inductive SearchOutcome where
  | showCards (cafes : List NormalizedCafe)
  | noResults
  | failed (err : String)
  deriving Repr, DecidableEq

/-- Whether the outcome is the error path (the `catch` block). -/
def SearchOutcome.isFailed : SearchOutcome → Bool
  | .failed _ => true
  | _ => false

/-- The sequence of normalized records a search hands onward: the list given
to `displayCards`, and the empty sequence on the no-results path. -/
def SearchOutcome.resultSeq : SearchOutcome → List NormalizedCafe
  | .showCards l => l
  | _ => []

/-- `useLocation` for one user-initiated search (script.js:62-138), as a
function of the single fetch's result.  The second component counts the
network queries issued: the body contains exactly one `await fetch`
(script.js:88), with no fallback query, so the count is 1 on every path.
A non-`ok` response throws `HTTP error! status: ...` (script.js:96-98),
which the `catch` receives like a transport error. -/
def useLocation (r : FetchResult) : SearchOutcome × Nat :=
  (match r with
   | .transportError m => .failed m
   | .httpResponse ok status els =>
     if ok then
       match els with
       | some elements =>
         if 0 < elements.length then
           if 0 < (uniqueCafes elements).length then
             .showCards (uniqueCafes elements)
           else .noResults
         else .noResults
       | none => .noResults
     else .failed ("HTTP error! status: " ++ toString status)
   , 1)

/-- `cafes.slice(0, 5)` at script.js:150: only the first 5 cards are
rendered. -/
def cafesToShow (cafes : List NormalizedCafe) : List NormalizedCafe :=
  cafes.take 5

/-- A record of the saved list.  The `cafeData` objects built at
script.js:158-165 carry `id`, `name`, `address`, `tags`, `lat`, `lon` and no
`place_id`; the field is kept as an `Option` (with `none` for absent, i.e.
JS `undefined`) because `saveCafe` reads it (script.js:223). -/
structure StoredCafe where
  id : Nat
  name : String
  address : String
  tags : Tags
  lat : Option Int
  lon : Option Int
  place_id : Option String
  deriving Repr, DecidableEq

/-- The `cafeData` object literal of script.js:158-165: every field copied
from the normalized record, and no `place_id` key. -/
def cafeDataOf (c : NormalizedCafe) : StoredCafe :=
  { id := c.id
    name := c.name
    address := c.address
    tags := c.tags
    lat := c.lat
    lon := c.lon
    place_id := none }

/-- The user-visible notice emitted by `saveCafe` (script.js:226,228). -/
inductive SaveNotice where
  | saved (name : String)
  | alreadySaved (name : String)
  deriving Repr, DecidableEq

/-- `saveCafe` (script.js:219-230): append unless
`savedCafes.some(c => c.place_id === cafe.place_id)`.  JS `===` between two
`undefined` values is true, which the `Option` equality mirrors with
`none = none`. -/
def saveCafe (savedCafes : List StoredCafe) (cafe : StoredCafe) :
    List StoredCafe × SaveNotice :=
  if savedCafes.any (fun c => c.place_id == cafe.place_id) then
    (savedCafes, .alreadySaved cafe.name)
  else
    (savedCafes ++ [cafe], .saved cafe.name)

/-- One card rendered by `showSaved` (script.js:249-254): the name and the
address line `cafe.address || 'Address not available'`. -/
structure SavedCard where
  name : String
  addressLine : String
  deriving Repr, DecidableEq

/-- The card built for one saved record (script.js:246-254). -/
def cardOf (c : StoredCafe) : SavedCard :=
  { name := c.name
    addressLine := if c.address = "" then "Address not available" else c.address }

/-- `showSaved` (script.js:233-260): the cards appended to the container, in
the order of the `savedCafes.forEach` loop.  (The empty list renders a
"no saved cafés" message and no cards.) -/
def showSaved (savedCafes : List StoredCafe) : List SavedCard :=
  savedCafes.foldl (fun acc c => acc ++ [cardOf c]) []

/-- The `cachedLocation` blob (script.js:40-44): coordinates plus an epoch-
millisecond timestamp. -/
structure CachedCoord where
  lat : Int
  lng : Int
  timestamp : Int
  deriving Repr, DecidableEq

/-- The platform geolocation service as seen by one `getLocation` call:
absent (`navigator.geolocation` undefined), failing, or yielding a
position. -/
inductive PlatformResult where
  | success (lat lng : Int)
  | failure
  deriving Repr, DecidableEq

/-- How one `getLocation` call obtained coordinates (or did not). -/
inductive LocOutcome where
  | cacheHit (lat lng : Int)
  | fresh (lat lng : Int)
  | locationError
  deriving Repr, DecidableEq

/-- The else-branch of `getLocation` (script.js:35-57): invoke the platform
service; on success store `{lat, lng, timestamp: now}` and use the position;
on failure or unsupported geolocation, alert and stop, leaving the stored
cache as it was. -/
def freshAcquire (cache : Option CachedCoord) (now : Int)
    (platform : Option PlatformResult) : LocOutcome × Option CachedCoord :=
  match platform with
  | some (.success la ln) => (.fresh la ln, some ⟨la, ln, now⟩)
  | some .failure => (.locationError, cache)
  | none => (.locationError, cache)

/-- `getLocation` (script.js:25-59): use the cached location when
`cache.timestamp && now - cache.timestamp < 10 * 60 * 1000`, otherwise
acquire afresh.  Returns the outcome and the cache left in storage. -/
def getLocation (cache : Option CachedCoord) (now : Int)
    (platform : Option PlatformResult) : LocOutcome × Option CachedCoord :=
  match cache with
  | some c =>
    if c.timestamp ≠ 0 ∧ now - c.timestamp < 10 * 60 * 1000 then
      (.cacheHit c.lat c.lng, some c)
    else freshAcquire (some c) now platform
  | none => freshAcquire none now platform

/-! ### Helper lemmas about the dedup pass -/

theorem truthyStr_eq_true {o : Option String} (h : truthyStr o = true) :
    ∃ s, o = some s ∧ s ≠ "" := by
  cases o with
  | none => simp [truthyStr] at h
  | some s =>
    refine ⟨s, rfl, ?_⟩
    simpa [truthyStr] using h

theorem dedupStep_eq_self (st : DedupState) (c : RawCafe)
    (h : normRecord c = none) : dedupStep st c = st := by
  unfold dedupStep
  cases ht : c.tags with
  | none => rfl
  | some t =>
    have hf : truthyStr t.name = false := by
      by_contra hname
      have : truthyStr t.name = true := by
        revert hname; cases truthyStr t.name <;> simp
      simp [normRecord, ht, this] at h
    simp [hf]

theorem mem_dedupRec_name_ne (l : List RawCafe) :
    ∀ seen nc, nc ∈ dedupRec seen l → nc.name ≠ "" := by
  induction l with
  | nil => intro seen nc h; simp [dedupRec] at h
  | cons c rest ih =>
    intro seen nc h
    cases ht : c.tags with
    | none =>
      simp only [dedupRec, ht] at h
      exact ih seen nc h
    | some t =>
      simp only [dedupRec, ht] at h
      by_cases hc : (truthyStr t.name && !seen.contains c.id) = true
      · rw [if_pos hc] at h
        rcases List.mem_cons.mp h with rfl | hmem
        · have hn := (Bool.and_eq_true _ _ |>.mp hc).1
          rcases truthyStr_eq_true hn with ⟨s, hs, hne⟩
          simp [normalizeWith, hs, hne]
        · exact ih (c.id :: seen) nc hmem
      · rw [if_neg hc] at h
        exact ih seen nc h

theorem mem_dedupRec_not_seen (l : List RawCafe) :
    ∀ seen nc, nc ∈ dedupRec seen l → nc.id ∉ seen := by
  induction l with
  | nil => intro seen nc h; simp [dedupRec] at h
  | cons c rest ih =>
    intro seen nc h
    cases ht : c.tags with
    | none =>
      simp only [dedupRec, ht] at h
      exact ih seen nc h
    | some t =>
      simp only [dedupRec, ht] at h
      by_cases hc : (truthyStr t.name && !seen.contains c.id) = true
      · rw [if_pos hc] at h
        rcases List.mem_cons.mp h with rfl | hmem
        · have hs := (Bool.and_eq_true _ _ |>.mp hc).2
          simp only [normalizeWith]
          simpa using hs
        · have := ih (c.id :: seen) nc hmem
          intro hmem2
          exact this (List.mem_cons_of_mem _ hmem2)
      · rw [if_neg hc] at h
        exact ih seen nc h

theorem dedupRec_ids_nodup (l : List RawCafe) :
    ∀ seen, ((dedupRec seen l).map NormalizedCafe.id).Nodup := by
  induction l with
  | nil => intro seen; simp [dedupRec]
  | cons c rest ih =>
    intro seen
    cases ht : c.tags with
    | none =>
      simp only [dedupRec, ht]
      exact ih seen
    | some t =>
      simp only [dedupRec, ht]
      by_cases hc : (truthyStr t.name && !seen.contains c.id) = true
      · rw [if_pos hc]
        rw [List.map_cons, List.nodup_cons]
        refine ⟨?_, ih (c.id :: seen)⟩
        intro hmem
        rcases List.mem_map.mp hmem with ⟨nc, hnc, hid⟩
        have := mem_dedupRec_not_seen rest (c.id :: seen) nc hnc
        rw [hid] at this
        simp only [normalizeWith] at this
        exact this (List.mem_cons_self _ _)
      · rw [if_neg hc]
        exact ih seen

theorem dedupRec_sublist (l : List RawCafe) :
    ∀ seen, List.Sublist (dedupRec seen l) (l.filterMap normRecord) := by
  induction l with
  | nil => intro seen; simp [dedupRec]
  | cons c rest ih =>
    intro seen
    cases ht : c.tags with
    | none =>
      have hnone : normRecord c = none := by simp [normRecord, ht]
      simp only [dedupRec, ht, List.filterMap_cons, hnone]
      exact ih seen
    | some t =>
      by_cases hname : truthyStr t.name = true
      · have hsome : normRecord c = some (normalizeWith c t) := by
          simp [normRecord, ht, hname]
        simp only [dedupRec, ht, List.filterMap_cons, hsome]
        by_cases hc : (truthyStr t.name && !seen.contains c.id) = true
        · rw [if_pos hc]
          exact List.Sublist.cons₂ _ (ih (c.id :: seen))
        · rw [if_neg hc]
          exact List.Sublist.cons _ (ih seen)
      · have hf : truthyStr t.name = false := by
          revert hname; cases truthyStr t.name <;> simp
        have hnone : normRecord c = none := by
          simp [normRecord, ht, hf]
        simp only [dedupRec, ht, List.filterMap_cons, hnone, hf]
        simp only [Bool.false_and, Bool.false_eq_true, if_false]
        exact ih seen

theorem dedupRec_congr (l : List RawCafe) :
    ∀ seen seen', (∀ x, x ∈ seen ↔ x ∈ seen') →
      dedupRec seen l = dedupRec seen' l := by
  induction l with
  | nil => intro seen seen' _; rfl
  | cons c rest ih =>
    intro seen seen' h
    cases ht : c.tags with
    | none =>
      simp only [dedupRec, ht]
      exact ih seen seen' h
    | some t =>
      have hB : seen.contains c.id = seen'.contains c.id := by
        simp [h c.id]
      simp only [dedupRec, ht, hB]
      by_cases hc : (truthyStr t.name && !seen'.contains c.id) = true
      · rw [if_pos hc, if_pos hc]
        refine congrArg _ (ih _ _ ?_)
        intro x
        simp only [List.mem_cons]
        rw [h x]
      · rw [if_neg hc, if_neg hc]
        exact ih seen seen' h

theorem dedupRec_skip (a : Nat) (l : List RawCafe) :
    ∀ seen, dedupRec (a :: seen) l =
      dedupRec seen (l.filter (fun c => !(c.id == a))) := by
  induction l with
  | nil => intro seen; rfl
  | cons c rest ih =>
    intro seen
    by_cases hid : c.id = a
    · have hfilter : (c :: rest).filter (fun c => !(c.id == a)) =
          rest.filter (fun c => !(c.id == a)) := by
        simp [List.filter_cons, hid]
      rw [hfilter]
      cases ht : c.tags with
      | none =>
        simp only [dedupRec, ht]
        exact ih seen
      | some t =>
        have hcontains : (a :: seen).contains c.id = true := by
          simp [List.contains_cons, hid]
        simp only [dedupRec, ht, hcontains]
        rw [if_neg (by simp)]
        exact ih seen
    · have hfilter : (c :: rest).filter (fun c => !(c.id == a)) =
          c :: rest.filter (fun c => !(c.id == a)) := by
        simp [List.filter_cons, hid]
      rw [hfilter]
      cases ht : c.tags with
      | none =>
        simp only [dedupRec, ht]
        exact ih seen
      | some t =>
        have hcontains : (a :: seen).contains c.id = seen.contains c.id := by
          simp [List.contains_cons, hid]
        simp only [dedupRec, ht, hcontains]
        by_cases hc : (truthyStr t.name && !seen.contains c.id) = true
        · rw [if_pos hc, if_pos hc]
          refine congrArg _ ?_
          rw [dedupRec_congr rest (c.id :: a :: seen) (a :: c.id :: seen)
              (by intro x; simp only [List.mem_cons]; tauto)]
          exact ih (c.id :: seen)
        · rw [if_neg hc, if_neg hc]
          exact ih seen

theorem uniqueCafes_cons_eligible (c : RawCafe) (n : NormalizedCafe)
    (l : List RawCafe) (h : normRecord c = some n) :
    uniqueCafes (c :: l) =
      n :: uniqueCafes (l.filter (fun d => !(d.id == c.id))) := by
  rcases ht : c.tags with _ | t
  · simp [normRecord, ht] at h
  · have hname : truthyStr t.name = true := by
      by_contra hc
      have hf : truthyStr t.name = false := by
        revert hc; cases truthyStr t.name <;> simp
      simp [normRecord, ht, hf] at h
    have hn : n = normalizeWith c t := by
      simp [normRecord, ht, hname] at h
      exact h.symm
    rw [uniqueCafes_eq_dedupRec, uniqueCafes_eq_dedupRec]
    simp only [dedupRec, ht]
    rw [if_pos (by simp [hname])]
    rw [hn, dedupRec_skip]

theorem uniqueCafes_cons_ineligible (c : RawCafe) (l : List RawCafe)
    (h : normRecord c = none) :
    uniqueCafes (c :: l) = uniqueCafes l := by
  unfold uniqueCafes
  rw [List.foldl_cons, dedupStep_eq_self _ _ h]

theorem uniqueCafes_drop_mid (l1 l2 : List RawCafe) (c : RawCafe)
    (h : normRecord c = none) :
    uniqueCafes (l1 ++ c :: l2) = uniqueCafes (l1 ++ l2) := by
  unfold uniqueCafes
  rw [List.foldl_append, List.foldl_append, List.foldl_cons,
    dedupStep_eq_self _ _ h]

theorem showSaved_foldl (l : List StoredCafe) :
    ∀ acc, l.foldl (fun acc c => acc ++ [cardOf c]) acc = acc ++ l.map cardOf := by
  induction l with
  | nil => intro acc; simp
  | cons c rest ih =>
    intro acc
    rw [List.foldl_cons, ih, List.map_cons]
    simp

theorem showSaved_eq_map (l : List StoredCafe) : showSaved l = l.map cardOf := by
  simpa using showSaved_foldl l []

/-- Whether a raw record passes the `cafe.tags && cafe.tags.name` guard of
script.js:109: a tags object is present and its `name` is truthy. -/
def hasName (c : RawCafe) : Bool :=
  match c.tags with
  | some t => truthyStr t.name
  | none => false

theorem normRecord_eq_none_of_not_hasName (c : RawCafe)
    (h : hasName c = false) : normRecord c = none := by
  unfold normRecord
  cases ht : c.tags with
  | none => rfl
  | some t =>
    have : truthyStr t.name = false := by
      unfold hasName at h
      rw [ht] at h
      exact h
    simp [this]

/-! ### Claims -/

/-- C4: identifiers are unique within every normalized result set; the
output is an order-preserving selection from the input (a sublist of the
per-record normalizations, so output order is input order); and when two or
more records share an identifier, exactly the first name-bearing one is
kept: consing a record that normalizes onto a list yields its normalization
followed by the dedup of the tail with every same-id record removed. -/
theorem claim_C4_dedup_first_wins :
    (∀ l : List RawCafe, ((uniqueCafes l).map NormalizedCafe.id).Nodup) ∧
    (∀ l : List RawCafe, List.Sublist (uniqueCafes l) (l.filterMap normRecord)) ∧
    (∀ (c : RawCafe) (n : NormalizedCafe) (rest : List RawCafe),
      normRecord c = some n →
      uniqueCafes (c :: rest) =
        n :: uniqueCafes (rest.filter (fun d => !(d.id == c.id)))) := by
  refine ⟨?_, ?_, ?_⟩
  · intro l
    rw [uniqueCafes_eq_dedupRec]
    exact dedupRec_ids_nodup l []
  · intro l
    rw [uniqueCafes_eq_dedupRec]
    exact dedupRec_sublist l []
  · intro c n rest h
    exact uniqueCafes_cons_eligible c n rest h

theorem claim_C4_witness :
    uniqueCafes
        [⟨1, some ⟨some "Blue Cup", none, none⟩, none, none⟩,
         ⟨1, some ⟨some "Red Cup", none, none⟩, none, none⟩] =
      [⟨1, "Blue Cup", ⟨some "Blue Cup", none, none⟩, none, none,
        "Address not available"⟩] := by
  have h := claim_C4_dedup_first_wins.2.2
    ⟨1, some ⟨some "Blue Cup", none, none⟩, none, none⟩
    ⟨1, "Blue Cup", ⟨some "Blue Cup", none, none⟩, none, none,
      "Address not available"⟩
    [⟨1, some ⟨some "Red Cup", none, none⟩, none, none⟩]
    (by rfl)
  rw [h]
  rfl

/-- C5: a raw record without a usable name is dropped entirely — removing
it from anywhere in the input leaves the normalized output unchanged — and
every normalized record in any output has a non-empty name. -/
theorem claim_C5_nameless_dropped :
    (∀ (l1 l2 : List RawCafe) (c : RawCafe), hasName c = false →
      uniqueCafes (l1 ++ c :: l2) = uniqueCafes (l1 ++ l2)) ∧
    (∀ (l : List RawCafe) (nc : NormalizedCafe),
      nc ∈ uniqueCafes l → nc.name ≠ "") := by
  constructor
  · intro l1 l2 c h
    exact uniqueCafes_drop_mid l1 l2 c (normRecord_eq_none_of_not_hasName c h)
  · intro l nc h
    rw [uniqueCafes_eq_dedupRec] at h
    exact mem_dedupRec_name_ne l [] nc h

theorem claim_C5_witness :
    uniqueCafes
        [⟨1, some ⟨some "Blue Cup", none, none⟩, none, none⟩,
         ⟨2, some ⟨none, some "Main St", none⟩, none, none⟩] =
      uniqueCafes [⟨1, some ⟨some "Blue Cup", none, none⟩, none, none⟩] ∧
    "Blue Cup" ≠ "" := by
  constructor
  · have h := claim_C5_nameless_dropped.1
      [⟨1, some ⟨some "Blue Cup", none, none⟩, none, none⟩] []
      ⟨2, some ⟨none, some "Main St", none⟩, none, none⟩ (by rfl)
    simpa using h
  · have h := claim_C5_nameless_dropped.2
      [⟨1, some ⟨some "Blue Cup", none, none⟩, none, none⟩]
      ⟨1, "Blue Cup", ⟨some "Blue Cup", none, none⟩, none, none,
        "Address not available"⟩
      (by rw [uniqueCafes_eq_dedupRec]; exact List.mem_singleton.mpr rfl)
    exact h

/-- C6: `displayCards` passes on at most 5 entries: the rendered selection
has length `min n 5`, its `i`-th entry is the input's `i`-th entry for
`i < 5` and nothing beyond, a list of at most 5 entries is kept whole, and
a longer list contributes exactly its first 5 entries. -/
theorem claim_C6_truncate_five :
    ∀ l : List NormalizedCafe,
      (cafesToShow l).length = min l.length 5 ∧
      (∀ i : Nat, (cafesToShow l)[i]? = if i < 5 then l[i]? else none) ∧
      (l.length ≤ 5 → cafesToShow l = l) ∧
      (5 < l.length → (cafesToShow l).length = 5) := by
  intro l
  refine ⟨?_, ?_, ?_, ?_⟩
  · rw [cafesToShow, List.length_take, Nat.min_comm]
  · intro i
    by_cases h : i < 5
    · rw [if_pos h, cafesToShow, List.getElem?_take_of_lt h]
    · rw [if_neg h, cafesToShow]
      apply List.getElem?_eq_none
      calc (l.take 5).length ≤ 5 := List.length_take_le 5 l
        _ ≤ i := Nat.le_of_not_lt h
  · intro h
    rw [cafesToShow]
    exact List.take_of_length_le h
  · intro h
    rw [cafesToShow, List.length_take]
    exact Nat.min_eq_left (Nat.le_of_lt h)

theorem claim_C6_witness :
    (cafesToShow (List.replicate 6
        ⟨1, "Blue Cup", ⟨none, none, none⟩, none, none, "x"⟩)).length = 5 ∧
    cafesToShow [⟨1, "Blue Cup", ⟨none, none, none⟩, none, none, "x"⟩] =
      [⟨1, "Blue Cup", ⟨none, none, none⟩, none, none, "x"⟩] := by
  constructor
  · exact (claim_C6_truncate_five _).2.2.2 (by simp)
  · exact (claim_C6_truncate_five _).2.2.1 (by simp)

/-- C9: `showSaved` renders exactly the stored entries, one card per entry,
in stored order: the card list is the elementwise rendering of the stored
list, with equal length and the `i`-th card built from the `i`-th stored
record — no sorting, filtering, or pagination. -/
theorem claim_C9_list_in_stored_order :
    ∀ savedCafes : List StoredCafe,
      showSaved savedCafes = savedCafes.map cardOf ∧
      (showSaved savedCafes).length = savedCafes.length ∧
      ∀ i : Nat, (showSaved savedCafes)[i]? = (savedCafes[i]?).map cardOf := by
  intro savedCafes
  refine ⟨showSaved_eq_map savedCafes, ?_, ?_⟩
  · rw [showSaved_eq_map, List.length_map]
  · intro i
    rw [showSaved_eq_map, List.getElem?_map]

/-- C7: a cached coordinate younger than 10 minutes is returned as-is,
independently of the platform service's behaviour (the service is never
consulted); one aged 10 minutes or more forces a fresh acquisition, whose
success stores the new coordinate stamped with the current time.  The
positivity hypothesis on the stored timestamp holds of every cache the
program writes, since the cache is only ever stored with `timestamp: now`
and epoch-millisecond clock readings are positive. -/
theorem claim_C7_location_cache :
    ∀ (c : CachedCoord) (now : Int) (platform : Option PlatformResult),
      0 < c.timestamp →
      (now - c.timestamp < 10 * 60 * 1000 →
        ∀ p' : Option PlatformResult,
          getLocation (some c) now p' = (.cacheHit c.lat c.lng, some c)) ∧
      (10 * 60 * 1000 ≤ now - c.timestamp →
        (∀ la ln : Int, platform = some (.success la ln) →
          getLocation (some c) now platform = (.fresh la ln, some ⟨la, ln, now⟩)) ∧
        (platform = some .failure ∨ platform = none →
          getLocation (some c) now platform = (.locationError, some c))) := by
  intro c now platform hts
  constructor
  · intro hage p'
    rw [getLocation, if_pos ⟨Int.ne_of_gt hts, hage⟩]
  · intro hage
    have hcond : ¬(c.timestamp ≠ 0 ∧ now - c.timestamp < 10 * 60 * 1000) := by
      rintro ⟨-, hlt⟩
      exact absurd hage (Int.not_le.mpr hlt)
    constructor
    · rintro la ln rfl
      rw [getLocation, if_neg hcond]
      rfl
    · rintro (rfl | rfl) <;>
        (rw [getLocation, if_neg hcond]; rfl)

theorem claim_C7_witness :
    getLocation (some ⟨10, 20, 1000000000⟩) (1000000000 + 9 * 60 * 1000)
        (some (.success 30 40)) =
      (.cacheHit 10 20, some ⟨10, 20, 1000000000⟩) ∧
    getLocation (some ⟨10, 20, 1000000000⟩) (1000000000 + 11 * 60 * 1000)
        (some (.success 30 40)) =
      (.fresh 30 40, some ⟨30, 40, 1000000000 + 11 * 60 * 1000⟩) := by
  constructor
  · exact (claim_C7_location_cache ⟨10, 20, 1000000000⟩
      (1000000000 + 9 * 60 * 1000) (some (.success 30 40)) (by decide)).1
      (by decide) (some (.success 30 40))
  · exact ((claim_C7_location_cache ⟨10, 20, 1000000000⟩
      (1000000000 + 11 * 60 * 1000) (some (.success 30 40)) (by decide)).2
      (by decide)).1 30 40 rfl

/-- C8: failure and emptiness are kept apart.  A transport error or a
non-`ok` response lands in the error outcome carrying the underlying error,
after the one and only network query (no retry: every path issues exactly
one query).  A successful query with an empty — or entirely filtered-out —
element list gives the no-results outcome, which is not the error path and
carries the empty sequence. -/
theorem claim_C8_failure_vs_empty :
    (∀ m : String, useLocation (.transportError m) = (.failed m, 1)) ∧
    (∀ (status : Nat) (els : Option (List RawCafe)),
      useLocation (.httpResponse false status els) =
        (.failed ("HTTP error! status: " ++ toString status), 1)) ∧
    (∀ r : FetchResult, (useLocation r).2 = 1) ∧
    (∀ status : Nat,
      useLocation (.httpResponse true status (some [])) = (.noResults, 1) ∧
      useLocation (.httpResponse true status none) = (.noResults, 1)) ∧
    (∀ (status : Nat) (raws : List RawCafe),
      (uniqueCafes raws).length = 0 →
      (useLocation (.httpResponse true status (some raws))).1 = .noResults) ∧
    SearchOutcome.noResults.isFailed = false ∧
    SearchOutcome.noResults.resultSeq = [] := by
  refine ⟨fun m => rfl, fun status els => rfl, fun r => rfl,
    fun status => ⟨rfl, rfl⟩, ?_, rfl, rfl⟩
  intro status raws h
  rw [useLocation]
  by_cases hlen : 0 < raws.length
  · rw [if_pos rfl]
    simp only [hlen, if_true, h]
    rfl
  · rw [if_pos rfl]
    simp only [hlen, if_false]

theorem claim_C8_witness :
    (useLocation (.httpResponse true 200
        (some [⟨7, some ⟨none, some "Main St", none⟩, none, none⟩]))).1 =
      .noResults := by
  exact claim_C8_failure_vs_empty.2.2.2.2.1 200
    [⟨7, some ⟨none, some "Main St", none⟩, none, none⟩] rfl

/-- C10: saved records built by `displayCards` carry an `id` but no
`place_id`, while `saveCafe` tests duplicates by `place_id`; since JS
`undefined === undefined` holds, once the store is non-empty every further
save of a `place_id`-less record is a no-op reporting "already saved", even
when its `id` differs from every stored entry's `id`. -/
theorem claim_C10_place_id_noop :
    (∀ nc : NormalizedCafe, (cafeDataOf nc).place_id = none) ∧
    (∀ (store : List StoredCafe) (cafe : StoredCafe),
      store ≠ [] →
      (∀ c ∈ store, c.place_id = none) →
      cafe.place_id = none →
      (∀ c ∈ store, c.id ≠ cafe.id) →
      saveCafe store cafe = (store, .alreadySaved cafe.name)) := by
  constructor
  · intro nc; rfl
  · intro store cafe hne hnone hcafe _
    obtain ⟨x, hx⟩ := List.exists_mem_of_ne_nil store hne
    have hany : store.any (fun c => c.place_id == cafe.place_id) = true := by
      rw [List.any_eq_true]
      exact ⟨x, hx, by rw [hnone x hx, hcafe]; rfl⟩
    rw [saveCafe, if_pos hany]

theorem claim_C10_witness :
    saveCafe
        [cafeDataOf ⟨1, "Blue Cup", ⟨some "Blue Cup", none, none⟩, none, none,
          "Address not available"⟩]
        (cafeDataOf ⟨2, "Red Cup", ⟨some "Red Cup", none, none⟩, none, none,
          "Address not available"⟩) =
      ([cafeDataOf ⟨1, "Blue Cup", ⟨some "Blue Cup", none, none⟩, none, none,
          "Address not available"⟩],
        .alreadySaved "Red Cup") := by
  exact claim_C10_place_id_noop.2 _ _ (by simp)
    (by intro c hc; rw [List.mem_singleton.mp hc]; rfl) rfl
    (by intro c hc; rw [List.mem_singleton.mp hc]; decide)

/-- C3 (code bug exhibit): with one saved cafe of id 1 in the store, saving
a cafe with the fresh id 2 is rejected as "already saved" and nothing is
appended — the `place_id` comparison at script.js:223 matches two absent
fields, contradicting the intended id-based idempotence (the code's own
notice claims the record "is already in your saved list"). -/
theorem claim_C3_bug_exhibit :
    saveCafe
        [cafeDataOf ⟨1, "Blue Cup", ⟨some "Blue Cup", none, none⟩, none, none,
          "Address not available"⟩]
        (cafeDataOf ⟨2, "Red Cup", ⟨some "Red Cup", none, none⟩, none, none,
          "Address not available"⟩) =
      ([cafeDataOf ⟨1, "Blue Cup", ⟨some "Blue Cup", none, none⟩, none, none,
          "Address not available"⟩],
        .alreadySaved "Red Cup") ∧
    (cafeDataOf ⟨1, "Blue Cup", ⟨some "Blue Cup", none, none⟩, none, none,
        "Address not available"⟩).id ≠
      (cafeDataOf ⟨2, "Red Cup", ⟨some "Red Cup", none, none⟩, none, none,
        "Address not available"⟩).id := by
  exact ⟨rfl, by decide⟩

/-- C1 counterexample: on a successful response with zero matching records,
the search issues no second query — the query count is 1, not the 2 that a
single-level broadened fallback would produce — and simply reports
no results. -/
theorem claim_C1_counterexample :
    useLocation (.httpResponse true 200 (some [])) = (.noResults, 1) ∧
    (useLocation (.httpResponse true 200 (some []))).2 ≠ 2 := by
  exact ⟨rfl, by decide⟩

/-- C1 (amended): every user-initiated search issues exactly one network
query — on zero matching records there is no broadened fallback query and
the outcome is the no-results presentation; when the single query succeeds
with records that normalize to M > 0 entries, those M records reach the
card display, which shows min M 5 of them: exactly M when M ≤ 5 and
exactly 5 when M > 5. -/
theorem claim_C1_amended_single_query :
    (∀ r : FetchResult, (useLocation r).2 = 1) ∧
    (∀ status : Nat,
      useLocation (.httpResponse true status (some [])) = (.noResults, 1)) ∧
    (∀ (status : Nat) (raws : List RawCafe),
      0 < (uniqueCafes raws).length →
      useLocation (.httpResponse true status (some raws)) =
        (.showCards (uniqueCafes raws), 1) ∧
      (cafesToShow (uniqueCafes raws)).length = min (uniqueCafes raws).length 5 ∧
      ((uniqueCafes raws).length ≤ 5 →
        cafesToShow (uniqueCafes raws) = uniqueCafes raws) ∧
      (5 < (uniqueCafes raws).length →
        (cafesToShow (uniqueCafes raws)).length = 5)) := by
  refine ⟨fun r => rfl, fun status => rfl, ?_⟩
  intro status raws h
  have hraws : 0 < raws.length := by
    cases raws with
    | nil => simp [uniqueCafes, dedupStep] at h
    | cons c rest => simp
  refine ⟨?_, ?_, ?_, ?_⟩
  · rw [useLocation]
    rw [if_pos rfl]
    simp only [hraws, if_true, h, if_true]
  · rw [cafesToShow, List.length_take, Nat.min_comm]
  · intro hle
    rw [cafesToShow]
    exact List.take_of_length_le hle
  · intro hgt
    rw [cafesToShow, List.length_take]
    exact Nat.min_eq_left (Nat.le_of_lt hgt)

theorem claim_C1_witness :
    useLocation (.httpResponse true 200
        (some [⟨1, some ⟨some "Blue Cup", none, none⟩, none, none⟩])) =
      (.showCards [⟨1, "Blue Cup", ⟨some "Blue Cup", none, none⟩, none, none,
        "Address not available"⟩], 1) := by
  have h := (claim_C1_amended_single_query.2.2 200
    [⟨1, some ⟨some "Blue Cup", none, none⟩, none, none⟩] (by decide)).1
  rw [h]
  rfl

theorem mem_dedupRec_address (l : List RawCafe) :
    ∀ seen nc, nc ∈ dedupRec seen l → nc.address = buildAddress nc.tags := by
  induction l with
  | nil => intro seen nc h; simp [dedupRec] at h
  | cons c rest ih =>
    intro seen nc h
    cases ht : c.tags with
    | none =>
      simp only [dedupRec, ht] at h
      exact ih seen nc h
    | some t =>
      simp only [dedupRec, ht] at h
      by_cases hc : (truthyStr t.name && !seen.contains c.id) = true
      · rw [if_pos hc] at h
        rcases List.mem_cons.mp h with rfl | hmem
        · rfl
        · exact ih (c.id :: seen) nc hmem
      · rw [if_neg hc] at h
        exact ih seen nc h

/-- C2 counterexample: the record of the spec's own example normalizes with
address "Main St 12" — street first, then house number — not "12 Main St";
moreover the "Address not available" marker appears whenever the street is
missing, even though a house-number fragment exists. -/
theorem claim_C2_counterexample :
    uniqueCafes
        [⟨1, some ⟨some "Blue Cup", some "Main St", some "12"⟩, none, none⟩] =
      [⟨1, "Blue Cup", ⟨some "Blue Cup", some "Main St", some "12"⟩, none, none,
        "Main St 12"⟩] ∧
    "Main St 12" ≠ "12 Main St" ∧
    buildAddress ⟨some "Corner Cup", none, some "7"⟩ = "Address not available" := by
  exact ⟨rfl, by decide, rfl⟩

/-- C2 (amended): normalization builds the display address as the street
followed — when a non-empty house number is present — by a space and the
house number; no city fragment takes part; the literal marker
"Address not available" is produced whenever the street fragment is absent
or empty, even if a house number exists; and every normalized record's
address arises this way from its own tags. -/
theorem claim_C2_amended_address :
    (∀ t : Tags, truthyStr t.addrStreet = false →
      buildAddress t = "Address not available") ∧
    (∀ (t : Tags) (s h : String), t.addrStreet = some s → s ≠ "" →
      t.addrHousenumber = some h → h ≠ "" →
      buildAddress t = s ++ (" " ++ h)) ∧
    (∀ (t : Tags) (s : String), t.addrStreet = some s → s ≠ "" →
      truthyStr t.addrHousenumber = false → buildAddress t = s) ∧
    (∀ (l : List RawCafe) (nc : NormalizedCafe), nc ∈ uniqueCafes l →
      nc.address = buildAddress nc.tags) := by
  refine ⟨?_, ?_, ?_, ?_⟩
  · intro t h
    cases hst : t.addrStreet with
    | none => simp [buildAddress, hst]
    | some s =>
      rw [hst] at h
      have hs : s = "" := by simpa [truthyStr] using h
      simp [buildAddress, hst, hs]
  · intro t s h hst hs hhn hh
    simp [buildAddress, hst, hs, hhn, hh]
  · intro t s hst hs hhn
    cases hh : t.addrHousenumber with
    | none => simp [buildAddress, hst, hs, hh]
    | some hn =>
      rw [hh] at hhn
      have : hn = "" := by simpa [truthyStr] using hhn
      simp [buildAddress, hst, hs, hh, this]
  · intro l nc h
    rw [uniqueCafes_eq_dedupRec] at h
    exact mem_dedupRec_address l [] nc h

theorem claim_C2_witness :
    buildAddress ⟨some "Blue Cup", some "Main St", some "12"⟩ = "Main St 12" ∧
    buildAddress ⟨some "Corner Cup", none, some "7"⟩ = "Address not available" := by
  constructor
  · have h := claim_C2_amended_address.2.1
      ⟨some "Blue Cup", some "Main St", some "12"⟩ "Main St" "12"
      rfl (by decide) rfl (by decide)
    rw [h]
    rfl
  · exact claim_C2_amended_address.1 ⟨some "Corner Cup", none, some "7"⟩ rfl
